import Mathlib

/-!
Shallow embedding of `senml/senml.py` (SenML Python object representation).

JSON scalar values handed to the parser are modelled by `JVal`; Python runtime
values stored in measurement attributes are modelled by `PyVal`.  Numbers are
modelled as exact rationals together with an `isInt` flag distinguishing the
Python `int` and `float` types (Python `==` on numbers compares the numeric
value only, which `pyEq` mirrors).  Python exceptions are modelled by `Except`
with an error tag per raise site.  The wall clock read by
`SenMLMeasurement.to_absolute` (`time.time()`) is passed explicitly as a
rational `now` parameter.
-/

/-- A JSON scalar value as produced by `json.loads`: null, number (with the
int/float distinction JSON decoders make), string, boolean, or an array of
byte values (the only array shape the code consumes, via the `vd` key). -/
inductive JVal where
  | null
  | num (q : ℚ) (isInt : Bool)
  | str (s : String)
  | bool (b : Bool)
  | arr (l : List ℕ)
deriving DecidableEq

/-- A Python runtime value as stored in measurement attributes: `None`, a
number (`int` when `isInt`, `float` otherwise), `str`, `bool`, `bytes`, or a
`list` of byte values. -/
inductive PyVal where
  | none
  | num (q : ℚ) (isInt : Bool)
  | str (s : String)
  | bool (b : Bool)
  | bytes (bs : List ℕ)
  | arr (l : List ℕ)
deriving DecidableEq

/-- Error tags for the exceptions the code can raise: `ValueError` from
numeric conversion of a non-numeric string (and from `bytes` of out-of-range
values), `TypeError` from adding or converting incompatible types,
`Exception('Invalid SenML message')` from `is_valid`, the
`ValueError('Multiple base version detected ...')` from `SenMLDocument.from_json`,
and the `Exception` raised by `to_json` when neither value nor sum is present. -/
inductive PyErr where
  | valueError
  | typeError
  | invalidSenML
  | multipleBaseVersions
  | serializeError
deriving DecidableEq

/-- Converts a JSON scalar to the Python value the decoder produces
(JSON `null` becomes Python `None`). -/
def jToPy : JVal → PyVal
  | .null => .none
  | .num q i => .num q i
  | .str s => .str s
  | .bool b => .bool b
  | .arr l => .arr l

/-- Models `data.get(key, default-None)`: an absent key and a key bound to
JSON null both yield Python `None`. -/
def getJ : Option JVal → PyVal
  | Option.none => .none
  | some j => jToPy j

/-- Structural equality of normalized rationals: numerators and
denominators agree. Since `Rat` is kept in lowest terms this is exactly
rational equality (see `ratEqB_iff`); it is used instead of `==` on `ℚ`
so that closed terms evaluate by plain integer comparisons. -/
def ratEqB (a b : ℚ) : Bool := a.num == b.num && a.den == b.den

/-- Python truthiness of a value (`bool(v)`). -/
def truthy : PyVal → Bool
  | .none => false
  | .num q _ => !(q.num == 0)
  | .str s => !(s == "")
  | .bool b => b
  | .bytes bs => !(bs == [])
  | .arr l => !(l == [])

/-- Python `a or b`: `a` when truthy, else `b`. -/
def pyOr (a b : PyVal) : PyVal := if truthy a then a else b

/-- The numeric value of a Python number, treating `bool` as the `int` it is a
subclass of (`True` counts as 1, `False` as 0); `Option.none` for
non-numbers. The boolean is the `int`-ness of the operand. -/
def addNum : PyVal → Option (ℚ × Bool)
  | .num q i => some (q, i)
  | .bool b => some (if b then 1 else 0, true)
  | _ => Option.none

/-- The numeric value of a Python value, `Option.none` for non-numbers. -/
def asNumQ (v : PyVal) : Option ℚ := (addNum v).map Prod.fst

/-- Python `a + b` restricted to the cases the code exercises: string
concatenation, bytes concatenation, and numeric addition (int+int is int,
anything involving a float is a float); every other pairing raises
`TypeError` exactly as Python does. -/
def pyAdd (a b : PyVal) : Except PyErr PyVal :=
  match a, b with
  | .str x, .str y => .ok (.str (x ++ y))
  | .bytes x, .bytes y => .ok (.bytes (x ++ y))
  | x, y =>
    match addNum x, addNum y with
    | some (q, i), some (q', i') => .ok (.num (q + q') (i && i'))
    | _, _ => .error .typeError

/-- Python `==` between attribute values: numbers (and booleans, which compare
as 0/1) compare by numeric value regardless of int/float type; other types
compare within their own type and are unequal across types (`None == 0` is
`False`). This is the equality `attr`-generated `__eq__` uses fieldwise. -/
def pyEq : PyVal → PyVal → Bool
  | .none, .none => true
  | .num q _, .num q' _ => ratEqB q q'
  | .num q _, .bool b => ratEqB q (if b then 1 else 0)
  | .bool b, .num q _ => ratEqB (if b then 1 else 0) q
  | .bool a, .bool b => a == b
  | .str a, .str b => a == b
  | .bytes a, .bytes b => a == b
  | .arr a, .arr b => a == b
  | _, _ => false

/-- The natural number denoted by a list of decimal digit characters. -/
def digitsToNat (l : List Char) : ℕ :=
  l.foldl (fun a c => a * 10 + (c.toNat - 48)) 0

/-- Model of Python `int(s)` on a string: an optional sign followed by a
non-empty run of decimal digits; anything else (including `"10.0"`) raises
`ValueError`. (Surrounding whitespace and underscore separators, which Python
also accepts, are not modelled; no input considered here uses them.) -/
def pyIntStr (s : String) : Option Int :=
  match s.toList with
  | [] => Option.none
  | '+' :: rest =>
    if rest ≠ [] ∧ rest.all (·.isDigit) then some (digitsToNat rest) else Option.none
  | '-' :: rest =>
    if rest ≠ [] ∧ rest.all (·.isDigit) then some (-(digitsToNat rest : Int)) else Option.none
  | l => if l.all (·.isDigit) then some (digitsToNat l) else Option.none

/-- Parses an unsigned decimal literal `digits [. digits]` with at least one
digit, returning its exact rational value. -/
def floatBody (l : List Char) : Option ℚ :=
  let intPart := l.takeWhile (·.isDigit)
  let rest := l.dropWhile (·.isDigit)
  match rest with
  | [] => if intPart = [] then Option.none else some (digitsToNat intPart)
  | '.' :: frac =>
    if frac.all (·.isDigit) ∧ (intPart ≠ [] ∨ frac ≠ []) then
      some ((digitsToNat intPart : ℚ) + (digitsToNat frac : ℚ) / (10 ^ frac.length))
    else Option.none
  | _ => Option.none

/-- Model of Python `float(s)` on a string: an optionally signed decimal
literal, evaluated exactly (the program only compares and adds the results,
so exact rationals stand in for binary floats; literals with an exponent,
infinities, NaN and surrounding whitespace are outside the modelled inputs). -/
def pyFloatStr (s : String) : Option ℚ :=
  match s.toList with
  | '+' :: rest => floatBody rest
  | '-' :: rest => (floatBody rest).map Neg.neg
  | l => floatBody l

/-- `SenMLMeasurement.numeric`: `None` and numbers (including `bool`, a
subclass of `int`) pass through unchanged; a string is converted with
`float(val)`, and when that float has no fractional part the code returns
`int(val)` — applied to the ORIGINAL string, so a string like `"10.0"`
raises `ValueError` even though it is numeric; otherwise `float(val)` is
returned. Lists raise `TypeError` from `float(val)`. (A `bytes` argument
never reaches this function in the modelled flows.) -/
def pyNumeric (v : PyVal) : Except PyErr PyVal :=
  match v with
  | .none => .ok .none
  | .num q i => .ok (.num q i)
  | .bool b => .ok (.bool b)
  | .str s =>
    match pyFloatStr s with
    | Option.none => .error .valueError
    | some q =>
      if q.den = 1 then
        match pyIntStr s with
        | some n => .ok (.num n true)
        | Option.none => .error .valueError
      else .ok (.num q false)
  | .bytes _ => .error .valueError
  | .arr _ => .error .typeError

/-- Model of Python `str(v)` as used on `vs`/`vb` payloads: exact for
strings, booleans, `None` and integral numbers (`str(0)` is `"0"`,
`str(0.0)` is `"0.0"`); non-integral floats and containers get a
placeholder rendering, which no modelled input observes. -/
def pyStr : PyVal → String
  | .str s => s
  | .none => "None"
  | .bool b => if b then "True" else "False"
  | .num q i =>
    if i then toString q.num
    else if q.den = 1 then toString q.num ++ ".0" else toString q
  | .bytes _ => "bytes"
  | .arr _ => "list"

/-- The `vb` decoding rule of `SenMLMeasurement.from_json`:
`str(data['vb']).casefold()` equal to `"false"` or `"0"` yields `False`,
anything else yields `True`. -/
def pyVbool (v : JVal) : Bool :=
  let s := (pyStr (jToPy v)).toLower
  !(s == "false" || s == "0")

/-- Model of Python `bytes(x)` as applied to `data['vd']`: a list of ints in
`[0,256)` becomes those bytes, a non-negative int `n` becomes `n` zero bytes,
`True`/`False` act as the ints 1/0, and strings, floats and `None` raise
`TypeError`. -/
def pyBytes (v : JVal) : Except PyErr PyVal :=
  match v with
  | .arr l => if l.all (· < 256) then .ok (.bytes l) else .error .valueError
  | .num q i =>
    if i then
      if 0 ≤ q.num then .ok (.bytes (List.replicate q.num.toNat 0)) else .error .valueError
    else .error .typeError
  | .bool b => .ok (.bytes (List.replicate (if b then 1 else 0) 0))
  | .str _ => .error .typeError
  | .null => .error .typeError

/-- The `SenMLMeasurement` attribute record. Every field defaults to Python
`None`, mirroring `attr.ib(default=None)`. -/
structure Measurement where
  name : PyVal := .none
  time : PyVal := .none
  unit : PyVal := .none
  value : PyVal := .none
  sum : PyVal := .none
  update_time : PyVal := .none
  version : PyVal := .none
deriving DecidableEq

/-- A raw SenML+JSON record: the keys `SenMLMeasurement.from_json`,
`base_from_json` and `is_valid` consult, each either absent or bound to a
JSON scalar. -/
structure JsonRecord where
  n : Option JVal := Option.none
  t : Option JVal := Option.none
  u : Option JVal := Option.none
  v : Option JVal := Option.none
  s : Option JVal := Option.none
  ut : Option JVal := Option.none
  vs : Option JVal := Option.none
  vb : Option JVal := Option.none
  vd : Option JVal := Option.none
  bn : Option JVal := Option.none
  bt : Option JVal := Option.none
  bu : Option JVal := Option.none
  bv : Option JVal := Option.none
  bs : Option JVal := Option.none
  bver : Option JVal := Option.none
deriving DecidableEq

/-- `attr`-generated `==` on two measurements: fieldwise Python `==`. -/
def mEq (a b : Measurement) : Bool :=
  pyEq a.name b.name && pyEq a.time b.time && pyEq a.unit b.unit &&
  pyEq a.value b.value && pyEq a.sum b.sum &&
  pyEq a.update_time b.update_time && pyEq a.version b.version

/-- Python `==` on two lists of measurements (pointwise, same length). -/
def docEq : List Measurement → List Measurement → Bool
  | [], [] => true
  | x :: xs, y :: ys => mEq x y && docEq xs ys
  | _, _ => false

/-- Whether `isinstance(v, (bool, bytes, str))` holds, the guard under which
`to_absolute` passes `self.value` through without combining it with the base. -/
def isBoolBytesStr : PyVal → Bool
  | .bool _ => true
  | .bytes _ => true
  | .str _ => true
  | _ => false

/-- The resolved name of `to_absolute`:
`(base.name or '') + (self.name or '')`. -/
def resName (base self : Measurement) : Except PyErr PyVal :=
  pyAdd (pyOr base.name (.str "")) (pyOr self.name (.str ""))

/-- The combined time of `to_absolute`:
`(base.time or 0) + (self.time or 0)` (computed identically at both places
in the code). -/
def resTimeRaw (base self : Measurement) : Except PyErr PyVal :=
  pyAdd (pyOr base.time (.num 0 true)) (pyOr self.time (.num 0 true))

/-- The resolved sum of `to_absolute`: the `sum` key is written only when
`base.sum or self.sum` is truthy (so a present sum equal to 0 does NOT
count), and then holds `(base.sum or 0) + (self.sum or 0)`; `PyVal.none`
models the key being left out. -/
def resSum (base self : Measurement) : Except PyErr PyVal :=
  if truthy base.sum || truthy self.sum then
    pyAdd (pyOr base.sum (.num 0 true)) (pyOr self.sum (.num 0 true))
  else .ok .none

/-- The resolved value of `to_absolute`: boolean/bytes/string values pass
through unchanged; otherwise the `value` key is written only when
`(self.value or base.value) is not None` (so `self.value == 0` with an
absent `base.value` does NOT count) and then holds
`(base.value or 0) + (self.value or 0)`. -/
def resValue (base self : Measurement) : Except PyErr PyVal :=
  if isBoolBytesStr self.value then .ok self.value
  else if pyOr self.value base.value ≠ .none then
    pyAdd (pyOr base.value (.num 0 true)) (pyOr self.value (.num 0 true))
  else .ok .none

/-- The epoch-heuristic threshold `268435456` (2^28). -/
def epochThreshold : ℚ := 268435456

/-- The final resolved time of `to_absolute`: when the combined time is
below `268435456` the wall clock `now` is added (Python adds the float
`time.time()`, so the result is a float); otherwise the combined value is
kept as-is. A non-numeric combined time would raise `TypeError` at the
`<` comparison. -/
def resTime (now : ℚ) (base self : Measurement) : Except PyErr PyVal := do
  let t ← resTimeRaw base self
  match asNumQ t with
  | some q => pure (if q < epochThreshold then PyVal.num (q + now) false else t)
  | Option.none => Except.error .typeError

/-- `SenMLMeasurement.to_absolute(self, base)` with the wall clock passed in
as `now`: builds a fresh measurement from the resolved name, time, unit,
sum, value and the verbatim `update_time`; the constructed measurement has
no `version` (the attrs dict carries no such key). The evaluation order of
the fields matches the Python statement order (name, combined time, sum,
value, then the epoch heuristic). -/
def toAbsolute (now : ℚ) (self base : Measurement) : Except PyErr Measurement := do
  let nm ← resName base self
  let _t0 ← resTimeRaw base self
  let sm ← resSum base self
  let vl ← resValue base self
  let tf ← resTime now base self
  pure { name := nm, time := tf, unit := pyOr self.unit base.unit, value := vl,
         sum := sm, update_time := self.update_time, version := .none }

/-- Whether the raw record carries any base-defining key
(`bn`/`bt`/`bu`/`bv`/`bs`/`bver`); Python's `key in data` is true even when
the key is bound to null. -/
def hasBaseKey (r : JsonRecord) : Bool :=
  r.bn.isSome || r.bt.isSome || r.bu.isSome || r.bv.isSome ||
  r.bs.isSome || r.bver.isSome

/-- `isinstance(v, int)` as the widening step of `from_json` tests it: true
for Python ints and for bools (a subclass of `int`). The widening converts
such a value to the equal float; floats are left alone. -/
def widen : PyVal → PyVal
  | .num q true => .num q false
  | .bool b => .num (if b then 1 else 0) false
  | x => x

/-- The value-resolution step of `SenMLMeasurement.from_json`: the `v` key is
numerically cleaned; when the result is `None`, the alternate encodings are
consulted in the fixed order `vs` (cast to `str`), then `vb` (the
false/0-string rule), then `vd` (`bytes(...)`); otherwise an int value is
widened to float. -/
def valueOf (r : JsonRecord) : Except PyErr PyVal := do
  let vl ← pyNumeric (getJ r.v)
  if vl = .none then
    match r.vs with
    | some x => pure (PyVal.str (pyStr (jToPy x)))
    | Option.none =>
      match r.vb with
      | some x => pure (PyVal.bool (pyVbool x))
      | Option.none =>
        match r.vd with
        | some x => pyBytes x
        | Option.none => pure PyVal.none
  else pure (widen vl)

/-- `SenMLMeasurement.from_json`: maps the short keys to attributes, cleans
`time`/`sum`/`value` numerically (the `version` entry of the cleanup loop
acts on an absent key and is a no-op), resolves alternate value encodings,
then applies `is_valid`: a record whose name is the empty string yields
`None` (the caller silently skips it), as does a value-less record that
carries some base-defining key; a value-less record with NO base-defining
key raises `Exception('Invalid SenML message')`. `Except.ok Option.none`
models the Python `None` return. -/
def MfromJson (r : JsonRecord) : Except PyErr (Option Measurement) := do
  let tm ← pyNumeric (getJ r.t)
  let sm ← pyNumeric (getJ r.s)
  let v₁ ← valueOf r
  if pyEq (getJ r.n) (.str "") then pure Option.none
  else if v₁ = .none then
    if hasBaseKey r then pure Option.none
    else Except.error .invalidSenML
  else
    pure (some { name := getJ r.n, time := tm, unit := getJ r.u, value := v₁,
                 sum := sm, update_time := getJ r.ut })

/-- The running set of declared base versions. Python uses a `set`; since
only the numeric value of a version is ever consulted (numbers equal under
`==` collide in a Python set), it is modelled as a duplicate-free list of
rationals in insertion order. -/
abbrev VSet := List ℚ

/-- Set insertion: a no-op when the (numerically) equal element is present. -/
def vadd (q : ℚ) (l : VSet) : VSet :=
  if q ∈ l then l else l ++ [q]

/-- The numeric value a truthy cleaned version denotes (`True` counts as 1;
only numbers and booleans can be truthy after a successful cleanup). -/
def verQ : PyVal → ℚ
  | .num q _ => q
  | .bool b => if b then 1 else 0
  | _ => 0

/-- `SenMLMeasurement.base_from_json`: reads the base-prefixed keys, cleans
`time`/`sum`/`value`/`version` numerically, and — only when the cleaned
version is TRUTHY (so a declared `bver` of 0 is never recorded) — adds its
numeric value to the version set. -/
def baseFromJson (r : JsonRecord) (vs : VSet) :
    Except PyErr (Measurement × VSet) := do
  let tm ← pyNumeric (getJ r.bt)
  let sm ← pyNumeric (getJ r.bs)
  let vl ← pyNumeric (getJ r.bv)
  let vr ← pyNumeric (getJ r.bver)
  let vs' := if truthy vr then vadd (verQ vr) vs else vs
  pure ({ name := getJ r.bn, time := tm, unit := getJ r.bu, value := vl,
          sum := sm, version := vr }, vs')

/-- `SenMLMeasurement.update_base`: extracts a fresh base from the record;
when no base exists yet the fresh one becomes it, otherwise every field that
`is not None` in the fresh base overwrites the running base (absent fields
leave it untouched; `update_time` is never part of a base). -/
def updateBase (base : Option Measurement) (r : JsonRecord) (vs : VSet) :
    Except PyErr (Measurement × VSet) := do
  let (nb, vs') ← baseFromJson r vs
  match base with
  | Option.none => pure (nb, vs')
  | some b =>
    pure ({ name := if nb.name ≠ .none then nb.name else b.name,
            time := if nb.time ≠ .none then nb.time else b.time,
            unit := if nb.unit ≠ .none then nb.unit else b.unit,
            value := if nb.value ≠ .none then nb.value else b.value,
            sum := if nb.sum ≠ .none then nb.sum else b.sum,
            update_time := b.update_time,
            version := if nb.version ≠ .none then nb.version else b.version }, vs')

/-- The record loop of `SenMLDocument.from_json`: for each record, update the
running base (recording any declared truthy version), parse the record's own
fields, and when the record yields a measurement append its absolutization
against the current base. Returns the collected measurements in input order
together with the final version set. -/
def collectPhase (now : ℚ) (base : Option Measurement) (vs : VSet) :
    List JsonRecord → Except PyErr (List Measurement × VSet)
  | [] => pure ([], vs)
  | r :: rs => do
    let (b', vs') ← updateBase base r vs
    let om ← MfromJson r
    match om with
    | Option.none => collectPhase now (some b') vs' rs
    | some m => do
      let a ← toAbsolute now m b'
      let (ms, vf) ← collectPhase now (some b') vs' rs
      pure (a :: ms, vf)

/-- The version the gate stamps onto measurements, as a Python object:
integral versions were stored as ints, others as floats. (A version that was
declared as an equal float or as `True` is stamped with the same numeric
value; only its int/float tag could differ, which Python `==` ignores.) -/
def stampVal (q : ℚ) : PyVal := .num q (decide (q.den = 1))

/-- The version-consistency gate of `SenMLDocument.from_json`: more than one
recorded version raises `ValueError`; exactly one version `v` stamps
`version = v` onto every collected measurement when `v < 10` and otherwise
discards them all; an empty version set leaves the measurements untouched. -/
def gatePhase (vs : VSet) (ms : List Measurement) :
    Except PyErr (List Measurement) :=
  if 1 < (vs : List ℚ).length then .error .multipleBaseVersions
  else
    match (vs : List ℚ) with
    | [] => .ok ms
    | v :: _ =>
      if v < 10 then .ok (ms.map (fun m => { m with version := stampVal v }))
      else .ok []

/-- The sort key `lambda x: x.time` of the final ordering: by the numeric
value of the resolved time (which absolutization always makes numeric). -/
def keyQ (m : Measurement) : ℚ := (asNumQ m.time).getD 0

/-- The ordering relation of the final `sorted(...)` call. -/
def timeLe (a b : Measurement) : Prop := keyQ a ≤ keyQ b

instance : DecidableRel timeLe := fun a b =>
  inferInstanceAs (Decidable (keyQ a ≤ keyQ b))

instance : IsTotal Measurement timeLe := ⟨fun a b => le_total (keyQ a) (keyQ b)⟩

instance : IsTrans Measurement timeLe := ⟨fun _ _ _ => le_trans⟩

/-- `SenMLDocument.from_json` with the wall clock passed as `now`: run the
record loop from an empty base and empty version set, apply the version
gate, and sort the surviving measurements ascending by time with a stable
sort (Python's `sorted`; `List.insertionSort` with a non-strict total
relation computes the same stable result, and an empty survivor list yields
the empty document either way). -/
def DfromJson (now : ℚ) (recs : List JsonRecord) :
    Except PyErr (List Measurement) := do
  let (ms, vs) ← collectPhase now Option.none [] recs
  let g ← gatePhase vs ms
  pure (List.insertionSort timeLe g)

/-- A `PyVal` attribute rendered back to the JSON scalar `to_json` emits for
it (bytes become the byte-array form). -/
def toJv : PyVal → JVal
  | .none => .null
  | .num q i => .num q i
  | .str s => .str s
  | .bool b => .bool b
  | .bytes l => .arr l
  | .arr l => .arr l

/-- A numeric field of `to_json`: absent attributes are left out, present
ones pass through `numeric`. -/
def numField (v : PyVal) : Except PyErr (Option JVal) :=
  match v with
  | .none => .ok Option.none
  | x => (pyNumeric x).map (fun y => some (toJv y))

/-- `SenMLMeasurement.to_json`: emits `n`/`t`/`u`/`s`/`ut`/`bver` for the
present attributes (names and units via `str(...)`, numerics via `numeric`,
the version verbatim under the base-version key), then re-tags the value by
runtime type: `vb` for bool, `vd` for bytes, `vs` for str, `v` for a number;
when neither a value nor a sum is present it raises
`Exception('Either a sum or a value has to be present in a record.')`. -/
def MtoJson (m : Measurement) : Except PyErr JsonRecord := do
  let nF := match m.name with
    | .none => (Option.none : Option JVal)
    | x => some (.str (pyStr x))
  let tF ← numField m.time
  let uF := match m.unit with
    | .none => (Option.none : Option JVal)
    | x => some (.str (pyStr x))
  let sF ← numField m.sum
  let utF ← numField m.update_time
  let bvF := match m.version with
    | .none => (Option.none : Option JVal)
    | x => some (toJv x)
  match m.value with
  | .bool b =>
    pure { n := nF, t := tF, u := uF, s := sF, ut := utF, bver := bvF,
           vb := some (.bool b) }
  | .bytes l =>
    pure { n := nF, t := tF, u := uF, s := sF, ut := utF, bver := bvF,
           vd := some (.arr l) }
  | .str s =>
    pure { n := nF, t := tF, u := uF, s := sF, ut := utF, bver := bvF,
           vs := some (.str s) }
  | .num q i => do
    let vq ← pyNumeric (.num q i)
    pure { n := nF, t := tF, u := uF, s := sF, ut := utF, bver := bvF,
           v := some (toJv vq) }
  | .arr _ => Except.error .typeError
  | .none =>
    if m.sum = .none then Except.error .serializeError
    else pure { n := nF, t := tF, u := uF, s := sF, ut := utF, bver := bvF }

/-- `SenMLDocument.to_json`: each measurement through its own `to_json`; an
empty document serializes to the empty list. -/
def DtoJson (ms : List Measurement) : Except PyErr (List JsonRecord) :=
  ms.mapM MtoJson

/-- The all-`None` measurement, `cls()` built from defaults. -/
def noneM : Measurement := {}

/-- A value that is either absent (`None`) or a plain number — the shape the
`time`/`sum`/`value` attributes have along the parse flow after numeric
cleanup (when no alternate value encoding was used). -/
def numOrNone (v : PyVal) : Prop := v = .none ∨ ∃ q i, v = .num q i

/-- The numeric value of an attribute with absent treated as 0: exactly what
`(x or 0)` contributes to the additions in `to_absolute` when `x` is
`None` or a number. -/
def qD (v : PyVal) : ℚ := (asNumQ v).getD 0

/-- The version a record declares as far as the version set is concerned:
the numeric value of the cleaned `bver` attribute when that is truthy,
nothing otherwise (in particular nothing for `bver` 0, and nothing when the
cleanup would raise). -/
def declVer (r : JsonRecord) : Option ℚ :=
  match pyNumeric (getJ r.bver) with
  | .ok v => if truthy v then some (verQ v) else Option.none
  | .error _ => Option.none

/-- Re-parsing turns an int-typed value into the equal float (the
rfc8428 widening in `from_json`); every other attribute survives the round
trip unchanged. -/
def floatify : PyVal → PyVal
  | .num q _ => .num q false
  | x => x

/-- The measurement a round trip through `to_json` / `from_json` /
`to_absolute` produces from a `goodM` measurement: identical except that the
value is float-typed. -/
def rtF (m : Measurement) : Measurement := { m with value := floatify m.value }

/-- The measurements for which the serialize-parse round trip is lossless:
a non-empty string name, a numeric time at or above the epoch threshold, a
non-zero numeric value, a sum that is absent or non-zero numeric (zero sums
are dropped by the truthiness test in `to_absolute`), a unit that is absent
or a non-empty string, a numeric-or-absent update time, and no version tag. -/
def goodM (m : Measurement) : Prop :=
  (∃ s, m.name = .str s ∧ s ≠ "") ∧
  (∃ q i, m.time = .num q i ∧ epochThreshold ≤ q) ∧
  (∃ q i, m.value = .num q i ∧ q ≠ 0) ∧
  (m.sum = .none ∨ ∃ q i, m.sum = .num q i ∧ q ≠ 0) ∧
  (m.unit = .none ∨ ∃ s, m.unit = .str s ∧ s ≠ "") ∧
  (m.update_time = .none ∨ ∃ q i, m.update_time = .num q i) ∧
  m.version = .none

/-- The JSON record `to_json` produces for a `goodM` measurement: short
keys for the present attributes, numerics passed through unchanged, the
value under `v`. -/
def recOf (m : Measurement) : JsonRecord :=
  { n := (match m.name with | .str s => some (.str s) | _ => Option.none),
    t := (match m.time with | .num q i => some (.num q i) | _ => Option.none),
    u := (match m.unit with | .str s => some (.str s) | _ => Option.none),
    v := (match m.value with | .num q i => some (.num q i) | _ => Option.none),
    s := (match m.sum with | .num q i => some (.num q i) | _ => Option.none),
    ut := (match m.update_time with
           | .num q i => some (.num q i)
           | _ => Option.none) }

/-- Strips the `version` tag from a measurement, for stating that the
version gate touches nothing else. -/
def dropVer (m : Measurement) : Measurement := { m with version := .none }

deriving instance DecidableEq for Except

lemma exbind_ok {α β : Type} (a : α) (f : α → Except PyErr β) :
    ((Except.ok a : Except PyErr α) >>= f) = f a := rfl

lemma exbind_err {α β : Type} (e : PyErr) (f : α → Except PyErr β) :
    ((Except.error e : Except PyErr α) >>= f) = .error e := rfl

lemma expure {α : Type} (a : α) : (pure a : Except PyErr α) = .ok a := rfl

lemma ratEqB_iff {a b : ℚ} : ratEqB a b = true ↔ a = b := by
  unfold ratEqB
  constructor
  · intro h
    rw [Bool.and_eq_true, beq_iff_eq, beq_iff_eq] at h
    exact Rat.ext h.1 h.2
  · intro h
    rw [h]
    simp

lemma pyEq_refl (v : PyVal) : pyEq v v = true := by
  cases v <;> simp [pyEq, ratEqB]

lemma toAbsolute_parts {now : ℚ} {self base r : Measurement}
    (h : toAbsolute now self base = .ok r) :
    resName base self = .ok r.name ∧ resSum base self = .ok r.sum ∧
    resValue base self = .ok r.value ∧ resTime now base self = .ok r.time ∧
    r.unit = pyOr self.unit base.unit ∧ r.update_time = self.update_time ∧
    r.version = .none := by
  unfold toAbsolute at h
  cases hnm : resName base self with
  | error e => rw [hnm, exbind_err] at h; exact absurd h (by simp)
  | ok nm =>
  rw [hnm, exbind_ok] at h
  cases ht0 : resTimeRaw base self with
  | error e => rw [ht0, exbind_err] at h; exact absurd h (by simp)
  | ok t0 =>
  rw [ht0, exbind_ok] at h
  cases hsm : resSum base self with
  | error e => rw [hsm, exbind_err] at h; exact absurd h (by simp)
  | ok sm =>
  rw [hsm, exbind_ok] at h
  cases hvl : resValue base self with
  | error e => rw [hvl, exbind_err] at h; exact absurd h (by simp)
  | ok vl =>
  rw [hvl, exbind_ok] at h
  cases htf : resTime now base self with
  | error e => rw [htf, exbind_err] at h; exact absurd h (by simp)
  | ok tf =>
  rw [htf, exbind_ok, expure] at h
  cases h
  exact ⟨rfl, rfl, rfl, rfl, rfl, rfl, rfl⟩

lemma pyOr_zero {v : PyVal} (hv : numOrNone v) :
    ∃ i, pyOr v (.num 0 true) = .num (qD v) i := by
  rcases hv with h | ⟨q, i, h⟩ <;> subst h
  · exact ⟨true, rfl⟩
  · by_cases hq : q = 0
    · subst hq; exact ⟨true, by simp [pyOr, truthy, qD, asNumQ, addNum]⟩
    · exact ⟨i, by simp [pyOr, truthy, hq, qD, asNumQ, addNum]⟩

lemma pyAdd_num {a b : PyVal} {qa qb : ℚ} {ia ib : Bool}
    (ha : a = .num qa ia) (hb : b = .num qb ib) :
    pyAdd a b = .ok (.num (qa + qb) (ia && ib)) := by
  subst ha; subst hb; rfl

lemma resSum_off {base self : Measurement}
    (hcond : (truthy base.sum || truthy self.sum) = false) :
    resSum base self = .ok .none := by
  unfold resSum; rw [hcond]; rfl

lemma resSum_on {base self : Measurement}
    (hbs : numOrNone base.sum) (hms : numOrNone self.sum)
    (hcond : (truthy base.sum || truthy self.sum) = true) :
    ∃ i, resSum base self = .ok (.num (qD base.sum + qD self.sum) i) := by
  obtain ⟨ib, hb⟩ := pyOr_zero hbs
  obtain ⟨im, hm⟩ := pyOr_zero hms
  exact ⟨ib && im, by unfold resSum; rw [hcond, pyAdd_num hb hm]; simp⟩

lemma isBBS_of_numOrNone {v : PyVal} (hv : numOrNone v) :
    isBoolBytesStr v = false := by
  rcases hv with h | ⟨q, i, h⟩ <;> subst h <;> rfl

lemma pyOr_ne_none {self base : Measurement} (hmv : numOrNone self.value) :
    (pyOr self.value base.value ≠ .none) ↔
      (truthy self.value = true ∨ base.value ≠ .none) := by
  rcases hmv with h | ⟨q, i, h⟩ <;> rw [h] <;> unfold pyOr
  · simp [truthy]
  · by_cases hq : q = 0
    · subst hq; simp [truthy]
    · simp [truthy, hq]

lemma resValue_off {base self : Measurement} (hmv : numOrNone self.value)
    (h1 : truthy self.value = false) (h2 : base.value = .none) :
    resValue base self = .ok .none := by
  unfold resValue
  rw [isBBS_of_numOrNone hmv, if_neg (by simp)]
  rw [if_neg (by rw [pyOr_ne_none hmv]; simp [h1, h2])]

lemma resValue_on {base self : Measurement}
    (hmv : numOrNone self.value) (hbv : numOrNone base.value)
    (hcond : truthy self.value = true ∨ base.value ≠ .none) :
    ∃ i, resValue base self = .ok (.num (qD base.value + qD self.value) i) := by
  obtain ⟨ib, hb⟩ := pyOr_zero hbv
  obtain ⟨im, hm⟩ := pyOr_zero hmv
  refine ⟨ib && im, ?_⟩
  unfold resValue
  rw [isBBS_of_numOrNone hmv, if_neg (by simp)]
  rw [if_pos (by rw [pyOr_ne_none hmv]; exact hcond), pyAdd_num hb hm]

lemma resTime_eval {now : ℚ} {base self : Measurement}
    (hbt : numOrNone base.time) (hmt : numOrNone self.time) {tf : PyVal}
    (h : resTime now base self = .ok tf) :
    asNumQ tf = some (if qD base.time + qD self.time < epochThreshold
                      then qD base.time + qD self.time + now
                      else qD base.time + qD self.time) := by
  obtain ⟨ib, hb⟩ := pyOr_zero hbt
  obtain ⟨im, hm⟩ := pyOr_zero hmt
  unfold resTime resTimeRaw at h
  rw [pyAdd_num hb hm, exbind_ok] at h
  set c := qD base.time + qD self.time with hc
  simp only [asNumQ, addNum, Option.map] at h
  by_cases hlt : c < epochThreshold
  · rw [if_pos hlt] at h; cases h; simp [asNumQ, addNum, if_pos hlt]
  · rw [if_neg hlt] at h; cases h; simp [asNumQ, addNum, if_neg hlt]

/-- C1 counterexample: with `base.sum` present and equal to 0 (and no
`self.sum`), the claim asserts the resolved sum field is present and equal
to 0, but `to_absolute` drops it: the truthiness test `base.sum or self.sum`
treats the present zero like an absent field. -/
theorem C1_counterexample :
    ({ sum := PyVal.num 0 true } : Measurement).sum ≠ PyVal.none ∧
    (toAbsolute 0 { name := .str "x", value := .num 1 true }
        { sum := PyVal.num 0 true }).map Measurement.sum =
      .ok PyVal.none :=
  ⟨fun h => PyVal.noConfusion h, by with_unfolding_all rfl⟩

/-- C1 (amended): for numeric-or-absent sums and values, the resolved sum
field is present exactly when `base.sum` or `self.sum` is TRUTHY (non-zero
and present), and then equals their numeric sum with absent-or-falsy sides
contributing 0; the resolved value field is present exactly when
`self.value` is truthy or `base.value` is present (a zero `self.value` with
an absent `base.value` is dropped), and then equals the numeric sum with
absent sides treated as 0. -/
theorem C1_amended_truthy_presence (now : ℚ) (self base r : Measurement)
    (hbs : numOrNone base.sum) (hms : numOrNone self.sum)
    (hmv : numOrNone self.value) (hbv : numOrNone base.value)
    (h : toAbsolute now self base = .ok r) :
    (r.sum = .none ↔ (truthy base.sum || truthy self.sum) = false) ∧
    ((truthy base.sum || truthy self.sum) = true →
      asNumQ r.sum = some (qD base.sum + qD self.sum)) ∧
    (r.value = .none ↔ (truthy self.value = false ∧ base.value = .none)) ∧
    ((truthy self.value = true ∨ base.value ≠ .none) →
      asNumQ r.value = some (qD base.value + qD self.value)) := by
  have hsum := (toAbsolute_parts h).2.1
  have hval := (toAbsolute_parts h).2.2.1
  by_cases hc : (truthy base.sum || truthy self.sum) = true
  · obtain ⟨i, he⟩ := resSum_on hbs hms hc
    rw [he] at hsum
    simp only [Except.ok.injEq] at hsum
    by_cases hv : truthy self.value = true ∨ base.value ≠ .none
    · obtain ⟨j, hev⟩ := resValue_on hmv hbv hv
      rw [hev] at hval
      simp only [Except.ok.injEq] at hval
      refine ⟨?_, fun _ => by rw [← hsum]; rfl, ?_, fun _ => by rw [← hval]; rfl⟩
      · rw [← hsum]; simp [hc]
      · rw [← hval]
        constructor
        · intro hcon; cases hcon
        · rintro ⟨h1, h2⟩; exact absurd (hv.resolve_left (by simp [h1])) (by simp [h2])
    · push_neg at hv
      obtain ⟨hv1, hv2⟩ := hv
      have hv1' : truthy self.value = false := by
        cases hx : truthy self.value
        · rfl
        · exact absurd hx hv1
      rw [resValue_off hmv hv1' hv2] at hval
      simp only [Except.ok.injEq] at hval
      refine ⟨?_, fun _ => by rw [← hsum]; rfl, ?_, ?_⟩
      · rw [← hsum]; simp [hc]
      · rw [← hval]; simp [hv1', hv2]
      · intro hcon
        rcases hcon with h1 | h2
        · exact absurd h1 hv1
        · exact absurd hv2 h2
  · have hc' : (truthy base.sum || truthy self.sum) = false := by
      cases hx : (truthy base.sum || truthy self.sum)
      · rfl
      · exact absurd hx hc
    rw [resSum_off hc'] at hsum
    simp only [Except.ok.injEq] at hsum
    by_cases hv : truthy self.value = true ∨ base.value ≠ .none
    · obtain ⟨j, hev⟩ := resValue_on hmv hbv hv
      rw [hev] at hval
      simp only [Except.ok.injEq] at hval
      refine ⟨?_, fun hcon => absurd hcon (by simp [hc']), ?_,
              fun _ => by rw [← hval]; rfl⟩
      · rw [← hsum]; simp [hc']
      · rw [← hval]
        constructor
        · intro hcon; cases hcon
        · rintro ⟨h1, h2⟩; exact absurd (hv.resolve_left (by simp [h1])) (by simp [h2])
    · push_neg at hv
      obtain ⟨hv1, hv2⟩ := hv
      have hv1' : truthy self.value = false := by
        cases hx : truthy self.value
        · rfl
        · exact absurd hx hv1
      rw [resValue_off hmv hv1' hv2] at hval
      simp only [Except.ok.injEq] at hval
      refine ⟨?_, fun hcon => absurd hcon (by simp [hc']), ?_, ?_⟩
      · rw [← hsum]; simp [hc']
      · rw [← hval]; simp [hv1', hv2]
      · intro hcon
        rcases hcon with h1 | h2
        · exact absurd h1 hv1
        · exact absurd hv2 h2

/-- C1 witness: a present non-zero sum (2) against an absent base sum keeps
the resolved sum present with value 0 + 2. -/
theorem C1_witness :
    asNumQ ({ name := PyVal.str "x", time := PyVal.num 0 false,
              unit := PyVal.none, value := PyVal.num 3 true,
              sum := PyVal.num 2 true, update_time := PyVal.none,
              version := PyVal.none } : Measurement).sum =
      some (qD PyVal.none + qD (PyVal.num 2 true)) :=
  (C1_amended_truthy_presence 0
      { name := .str "x", value := .num 3 true, sum := .num 2 true } {}
      { name := PyVal.str "x", time := PyVal.num 0 false,
        unit := PyVal.none, value := PyVal.num 3 true,
        sum := PyVal.num 2 true, update_time := PyVal.none,
        version := PyVal.none }
      (Or.inl rfl) (Or.inr ⟨2, true, rfl⟩) (Or.inr ⟨3, true, rfl⟩)
      (Or.inl rfl) (by with_unfolding_all rfl)).2.1 (by with_unfolding_all rfl)

/-- C2: the numeric cleanup contradicts its own docstring ("Convert val to
int if the value does not have any decimals"): for the numeric string
"10.0" the code computes `int(val)` on the ORIGINAL string, which raises
`ValueError`, instead of storing the integer 10. Plain integer strings,
fractional strings, already-numeric values and `None` behave as documented;
"abc" is a genuine conversion error. -/
theorem C2_numeric_string_bug :
    pyNumeric (.str "10.0") = .error .valueError ∧
    pyNumeric (.str "10") = .ok (.num 10 true) ∧
    pyNumeric (.str "10.5") = .ok (.num (21 / 2 : ℚ) false) ∧
    pyNumeric (.str "abc") = .error .valueError ∧
    pyNumeric .none = .ok .none ∧
    pyNumeric (.num 7 false) = .ok (.num 7 false) := by
  refine ⟨?_, ?_, ?_, ?_, ?_, ?_⟩ <;> with_unfolding_all rfl

/-- C3: with the clock passed as an input, the resolved time is
`combined + now` when the combined time `base.time + self.time` (absent
sides treated as 0) is strictly below 268435456, and the combined value
unchanged when it is at or above 268435456 — so exactly 268435456 gets no
clock addition while 268435455 does. -/
theorem C3_epoch_heuristic (now : ℚ) (self base r : Measurement)
    (hbt : numOrNone base.time) (hmt : numOrNone self.time)
    (h : toAbsolute now self base = .ok r) :
    asNumQ r.time = some (if qD base.time + qD self.time < epochThreshold
                          then qD base.time + qD self.time + now
                          else qD base.time + qD self.time) :=
  resTime_eval hbt hmt (toAbsolute_parts h).2.2.2.1

/-- C3 witness: a combined time of 268435455 (one below the threshold) gets
the clock (7) added. -/
theorem C3_witness :
    asNumQ ({ name := PyVal.str "", time := PyVal.num 268435462 false,
              unit := PyVal.none, value := PyVal.none, sum := PyVal.none,
              update_time := PyVal.none,
              version := PyVal.none } : Measurement).time =
      some (if qD PyVal.none + qD (PyVal.num 268435455 true) < epochThreshold
            then qD PyVal.none + qD (PyVal.num 268435455 true) + 7
            else qD PyVal.none + qD (PyVal.num 268435455 true)) :=
  C3_epoch_heuristic 7 { time := .num 268435455 true } {}
    { name := PyVal.str "", time := PyVal.num 268435462 false,
      unit := PyVal.none, value := PyVal.none, sum := PyVal.none,
      update_time := PyVal.none, version := PyVal.none }
    (Or.inl rfl) (Or.inr ⟨268435455, true, rfl⟩) (by with_unfolding_all rfl)

lemma pyNumeric_shape {x v : PyVal} (h : pyNumeric x = .ok v) :
    v = .none ∨ (∃ q i, v = .num q i) ∨ ∃ b, v = .bool b := by
  cases x with
  | none => simp [pyNumeric] at h; exact Or.inl h.symm
  | num q i => simp [pyNumeric] at h; exact Or.inr (Or.inl ⟨q, i, h.symm⟩)
  | bool b => simp [pyNumeric] at h; exact Or.inr (Or.inr ⟨b, h.symm⟩)
  | str s =>
    simp only [pyNumeric] at h
    cases hf : pyFloatStr s with
    | none => simp only [hf] at h; exact absurd h (by simp)
    | some q =>
      simp only [hf] at h
      by_cases hd : q.den = 1
      · rw [if_pos hd] at h
        cases hi : pyIntStr s with
        | none => simp only [hi] at h; exact absurd h (by simp)
        | some n =>
          simp only [hi] at h
          simp only [Except.ok.injEq] at h
          exact Or.inr (Or.inl ⟨n, true, h.symm⟩)
      · rw [if_neg hd] at h
        simp only [Except.ok.injEq] at h
        exact Or.inr (Or.inl ⟨q, false, h.symm⟩)
  | bytes bs => simp [pyNumeric] at h
  | arr l => simp [pyNumeric] at h

lemma pyNumeric_ok_none {x : PyVal} (h : pyNumeric x = .ok .none) :
    x = .none := by
  cases x with
  | none => rfl
  | num q i => simp [pyNumeric] at h
  | bool b => simp [pyNumeric] at h
  | str s =>
    exfalso
    simp only [pyNumeric] at h
    cases hf : pyFloatStr s with
    | none => simp only [hf] at h; exact absurd h (by simp)
    | some q =>
      simp only [hf] at h
      by_cases hd : q.den = 1
      · rw [if_pos hd] at h
        cases hi : pyIntStr s with
        | none => simp only [hi] at h; exact absurd h (by simp)
        | some n => simp only [hi] at h; simp at h
      · rw [if_neg hd] at h; simp at h
  | bytes bs => simp [pyNumeric] at h
  | arr l => simp [pyNumeric] at h

lemma MfromJson_eq {r : JsonRecord} {tv sv v₁ : PyVal}
    (h1 : pyNumeric (getJ r.t) = .ok tv) (h2 : pyNumeric (getJ r.s) = .ok sv)
    (h3 : valueOf r = .ok v₁) :
    MfromJson r =
      if pyEq (getJ r.n) (.str "") then .ok Option.none
      else if v₁ = .none then
        (if hasBaseKey r then .ok Option.none else .error .invalidSenML)
      else .ok (some { name := getJ r.n, time := tv, unit := getJ r.u,
                       value := v₁, sum := sv, update_time := getJ r.ut }) := by
  unfold MfromJson
  rw [h1, exbind_ok, h2, exbind_ok, h3, exbind_ok]
  rfl

lemma MfromJson_parts {r : JsonRecord} {m : Measurement}
    (h : MfromJson r = .ok (some m)) :
    pyNumeric (getJ r.t) = .ok m.time ∧ pyNumeric (getJ r.s) = .ok m.sum ∧
    valueOf r = .ok m.value ∧ m.name = getJ r.n ∧ m.unit = getJ r.u ∧
    m.update_time = getJ r.ut ∧ m.version = .none ∧ m.value ≠ .none := by
  unfold MfromJson at h
  cases h1 : pyNumeric (getJ r.t) with
  | error e => rw [h1, exbind_err] at h; exact absurd h (by simp)
  | ok tv =>
  rw [h1, exbind_ok] at h
  cases h2 : pyNumeric (getJ r.s) with
  | error e => rw [h2, exbind_err] at h; exact absurd h (by simp)
  | ok sv =>
  rw [h2, exbind_ok] at h
  cases h3 : valueOf r with
  | error e => rw [h3, exbind_err] at h; exact absurd h (by simp)
  | ok v₁ =>
  rw [h3, exbind_ok] at h
  by_cases hn : pyEq (getJ r.n) (.str "")
  · rw [if_pos hn] at h; exact absurd h (by simp [expure])
  · rw [if_neg hn] at h
    by_cases hv : v₁ = PyVal.none
    · rw [if_pos hv] at h
      by_cases hb : hasBaseKey r
      · rw [if_pos hb] at h; exact absurd h (by simp [expure])
      · rw [if_neg hb] at h; exact absurd h (by simp)
    · rw [if_neg hv] at h
      rw [expure] at h
      simp only [Except.ok.injEq, Option.some.injEq] at h
      subst h
      exact ⟨rfl, rfl, rfl, rfl, rfl, rfl, rfl, hv⟩

/-- C4 counterexample: a record carrying a sum but no value and no
base-defining keys RAISES `Exception('Invalid SenML message')` (the validity
check never looks at the sum), contradicting the claim that it parses
successfully; and a record with an empty resolved name is silently skipped
(`from_json` returns `None`) rather than raising. -/
theorem C4_counterexample :
    MfromJson { n := some (.str "x"), s := some (.num 5 true) } =
      .error .invalidSenML ∧
    MfromJson { n := some (.str ""), v := some (.num 1 true) } =
      .ok Option.none := by
  refine ⟨?_, ?_⟩ <;> with_unfolding_all rfl

/-- C4 (amended): `from_json` raises `InvalidRecord` exactly when the
resolved name is NOT the empty string, the resolved value (after the
alternate encodings) is absent, and the record carries no base-defining key
— regardless of any sum; a record with an empty resolved name, or a
value-less record that does carry a base-defining key, is silently dropped
(`None` return), not an error; and the raise aborts the whole document
parse. -/
theorem C4_amended_validity (r : JsonRecord) (tv sv v₁ : PyVal)
    (h1 : pyNumeric (getJ r.t) = .ok tv) (h2 : pyNumeric (getJ r.s) = .ok sv)
    (h3 : valueOf r = .ok v₁) :
    (MfromJson r = .error .invalidSenML ↔
      (pyEq (getJ r.n) (.str "") = false ∧ v₁ = .none ∧ hasBaseKey r = false)) ∧
    (MfromJson r = .ok Option.none ↔
      (pyEq (getJ r.n) (.str "") = true ∨ (v₁ = .none ∧ hasBaseKey r = true))) ∧
    (pyEq (getJ r.n) (.str "") = false → v₁ = .none → hasBaseKey r = false →
      ∀ now : ℚ, DfromJson now [r] = .error .invalidSenML) := by
  have hmeq := MfromJson_eq h1 h2 h3
  refine ⟨?_, ?_, ?_⟩
  · rw [hmeq]
    by_cases hn : pyEq (getJ r.n) (.str "")
    · rw [if_pos hn]; simp [hn]
    · rw [if_neg hn]
      by_cases hv : v₁ = PyVal.none
      · rw [if_pos hv]
        by_cases hb : hasBaseKey r
        · rw [if_pos hb]; simp [hb]
        · rw [if_neg hb]
          simp only [Bool.not_eq_true] at hn hb
          simp [hn, hv, hb]
      · rw [if_neg hv]; simp [hv]
  · rw [hmeq]
    by_cases hn : pyEq (getJ r.n) (.str "")
    · rw [if_pos hn]; simp [hn]
    · rw [if_neg hn]
      by_cases hv : v₁ = PyVal.none
      · rw [if_pos hv]
        by_cases hb : hasBaseKey r
        · rw [if_pos hb]; simp [hb, hv]
        · rw [if_neg hb]
          simp only [Bool.not_eq_true] at hn hb
          simp [hn, hb]
      · rw [if_neg hv]
        simp only [Bool.not_eq_true] at hn
        simp [hn, hv]
  · intro hn hv hb now
    have hbn : r.bn = Option.none := by
      cases hx : r.bn
      · rfl
      · rw [hasBaseKey, hx] at hb; simp at hb
    have hbt : r.bt = Option.none := by
      cases hx : r.bt
      · rfl
      · rw [hasBaseKey, hx] at hb; simp at hb
    have hbu : r.bu = Option.none := by
      cases hx : r.bu
      · rfl
      · rw [hasBaseKey, hx] at hb; simp at hb
    have hbv : r.bv = Option.none := by
      cases hx : r.bv
      · rfl
      · rw [hasBaseKey, hx] at hb; simp at hb
    have hbs : r.bs = Option.none := by
      cases hx : r.bs
      · rfl
      · rw [hasBaseKey, hx] at hb; simp at hb
    have hbver : r.bver = Option.none := by
      cases hx : r.bver
      · rfl
      · rw [hasBaseKey, hx] at hb; simp at hb
    have hbase : baseFromJson r [] = .ok
        ({ name := .none, time := .none, unit := .none, value := .none,
           sum := .none, version := .none }, ([] : VSet)) := by
      unfold baseFromJson
      rw [hbn, hbt, hbu, hbv, hbs, hbver]
      rfl
    have hupd : updateBase Option.none r [] = .ok
        ({ name := .none, time := .none, unit := .none, value := .none,
           sum := .none, version := .none }, ([] : VSet)) := by
      unfold updateBase
      rw [hbase, exbind_ok]
      rfl
    have hmj : MfromJson r = .error .invalidSenML := by
      rw [hmeq, if_neg (by simp [hn]), if_pos hv, if_neg (by simp [hb])]
    show (do
      let (ms, vs) ← collectPhase now Option.none [] [r]
      let g ← gatePhase vs ms
      pure (List.insertionSort timeLe g)) = .error .invalidSenML
    rw [show collectPhase now Option.none [] [r] = .error .invalidSenML by
      unfold collectPhase
      simp only [hupd, exbind_ok, hmj, exbind_err], exbind_err]

/-- C4 witness: for the record carrying only a name and a sum, the raise
condition of the amended claim holds and the parse raises `InvalidRecord`. -/
theorem C4_witness :
    MfromJson { n := some (.str "x"), s := some (.num 5 true) } =
        .error .invalidSenML ↔
      (pyEq (getJ ({ n := some (.str "x"), s := some (.num 5 true) }
          : JsonRecord).n) (.str "") = false ∧
        (PyVal.none : PyVal) = .none ∧
        hasBaseKey { n := some (.str "x"), s := some (.num 5 true) } = false) :=
  (C4_amended_validity { n := some (.str "x"), s := some (.num 5 true) }
    .none (.num 5 true) .none (by with_unfolding_all rfl)
    (by with_unfolding_all rfl) (by with_unfolding_all rfl)).1

/-- C10: in `from_json`, the alternate value encodings are consulted only
when the numeric `v` key is absent or null, with the fixed precedence `vs`
over `vb` over `vd` (lower-precedence keys silently ignored); when `v` is
present and non-null, the stored value is numeric (an int is widened to the
equal float) and the alternates are ignored. -/
theorem C10_value_precedence (r : JsonRecord) (m : Measurement)
    (h : MfromJson r = .ok (some m)) :
    ((getJ r.v = PyVal.none) →
      (∀ x, r.vs = some x → m.value = .str (pyStr (jToPy x))) ∧
      (r.vs = Option.none → ∀ x, r.vb = some x → m.value = .bool (pyVbool x)) ∧
      (r.vs = Option.none → r.vb = Option.none → ∀ x bs, r.vd = some x →
        pyBytes x = .ok (.bytes bs) → m.value = .bytes bs)) ∧
    (∀ jv, r.v = some jv → jv ≠ .null → ∃ q, m.value = .num q false) := by
  have h3 := (MfromJson_parts h).2.2.1
  constructor
  · intro hv
    unfold valueOf at h3
    rw [hv] at h3
    simp only [pyNumeric, exbind_ok, if_true] at h3
    refine ⟨?_, ?_, ?_⟩
    · intro x hvs
      simp only [hvs, expure, Except.ok.injEq] at h3
      exact h3.symm
    · intro hvs x hvb
      simp only [hvs, hvb, expure, Except.ok.injEq] at h3
      exact h3.symm
    · intro hvs hvb x bs hvd hpb
      simp only [hvs, hvb, hvd] at h3
      rw [hpb] at h3
      simp only [Except.ok.injEq] at h3
      exact h3.symm
  · intro jv hjv hnull
    unfold valueOf at h3
    rw [hjv] at h3
    cases hcl : pyNumeric (getJ (some jv)) with
    | error e => rw [hcl, exbind_err] at h3; exact absurd h3 (by simp)
    | ok v₀ =>
      rw [hcl, exbind_ok] at h3
      have hv0 : v₀ ≠ PyVal.none := by
        intro hh
        subst hh
        have hnn := pyNumeric_ok_none hcl
        cases jv with
        | null => exact hnull rfl
        | num q i => simp [getJ, jToPy] at hnn
        | str s => simp [getJ, jToPy] at hnn
        | bool b => simp [getJ, jToPy] at hnn
        | arr l => simp [getJ, jToPy] at hnn
      rw [if_neg hv0] at h3
      simp only [expure, Except.ok.injEq] at h3
      rcases pyNumeric_shape hcl with h0 | ⟨q, i, h0⟩ | ⟨b, h0⟩
      · exact absurd h0 hv0
      · subst h0
        exact ⟨q, by rw [← h3]; cases i <;> rfl⟩
      · subst h0
        cases b
        · exact ⟨0, by rw [← h3]; rfl⟩
        · exact ⟨1, by rw [← h3]; rfl⟩

/-- C10 witness: a record carrying `vs`, `vb` and `vd` simultaneously (no
`v` key) takes its value from `vs`. -/
theorem C10_witness :
    ({ name := .str "x", time := .none, unit := .none, value := .str "hi",
       sum := .none, update_time := .none,
       version := .none } : Measurement).value =
      .str (pyStr (jToPy (.str "hi"))) :=
  ((C10_value_precedence
      { n := some (.str "x"), vs := some (.str "hi"),
        vb := some (.bool true), vd := some (.arr [1]) }
      { name := .str "x", time := .none, unit := .none, value := .str "hi",
        sum := .none, update_time := .none, version := .none }
      (by with_unfolding_all rfl)).1 rfl).1 (.str "hi") rfl

lemma vadd_mem {x q : ℚ} {l : VSet} : q ∈ vadd x l ↔ q ∈ l ∨ q = x := by
  unfold vadd
  by_cases hx : x ∈ l
  · rw [if_pos hx]
    constructor
    · exact Or.inl
    · rintro (h | h)
      · exact h
      · rw [h]; exact hx
  · rw [if_neg hx]
    simp [List.mem_append]

lemma baseFromJson_vs {r : JsonRecord} {vs : VSet} {b' : Measurement}
    {vs' : VSet} (h : baseFromJson r vs = .ok (b', vs')) :
    vs' = (match declVer r with
           | some q => vadd q vs
           | Option.none => vs) := by
  unfold baseFromJson at h
  cases h1 : pyNumeric (getJ r.bt) with
  | error e => rw [h1, exbind_err] at h; exact absurd h (by simp)
  | ok tm =>
  rw [h1, exbind_ok] at h
  cases h2 : pyNumeric (getJ r.bs) with
  | error e => rw [h2, exbind_err] at h; exact absurd h (by simp)
  | ok sm =>
  rw [h2, exbind_ok] at h
  cases h3 : pyNumeric (getJ r.bv) with
  | error e => rw [h3, exbind_err] at h; exact absurd h (by simp)
  | ok vl =>
  rw [h3, exbind_ok] at h
  cases h4 : pyNumeric (getJ r.bver) with
  | error e => rw [h4, exbind_err] at h; exact absurd h (by simp)
  | ok vr =>
  rw [h4, exbind_ok, expure] at h
  simp only [Except.ok.injEq, Prod.mk.injEq] at h
  rw [← h.2]
  by_cases ht : truthy vr
  · simp [declVer, h4, ht]
  · simp [declVer, h4, ht]

lemma updateBase_vs {base : Option Measurement} {r : JsonRecord} {vs : VSet}
    {b' : Measurement} {vs' : VSet}
    (h : updateBase base r vs = .ok (b', vs')) :
    vs' = (match declVer r with
           | some q => vadd q vs
           | Option.none => vs) := by
  unfold updateBase at h
  cases hb : baseFromJson r vs with
  | error e => rw [hb, exbind_err] at h; exact absurd h (by simp)
  | ok p =>
    obtain ⟨nb, vs₀⟩ := p
    rw [hb, exbind_ok] at h
    have hv := baseFromJson_vs hb
    cases base with
    | none =>
      simp only [expure, Except.ok.injEq, Prod.mk.injEq] at h
      rw [← h.2]; exact hv
    | some b =>
      simp only [expure, Except.ok.injEq, Prod.mk.injEq] at h
      rw [← h.2]; exact hv

lemma collect_vs {now : ℚ} : ∀ (recs : List JsonRecord)
    (base : Option Measurement) (vs0 : VSet) (ms : List Measurement)
    (vsf : VSet), collectPhase now base vs0 recs = .ok (ms, vsf) →
    ∀ q : ℚ, q ∈ vsf ↔ q ∈ vs0 ∨ ∃ r, r ∈ recs ∧ declVer r = some q := by
  intro recs
  induction recs with
  | nil =>
    intro base vs0 ms vsf h q
    unfold collectPhase at h
    simp only [expure, Except.ok.injEq, Prod.mk.injEq] at h
    rw [← h.2]
    simp
  | cons r rs ih =>
    intro base vs0 ms vsf h q
    unfold collectPhase at h
    cases hu : updateBase base r vs0 with
    | error e => rw [hu, exbind_err] at h; exact absurd h (by simp)
    | ok p =>
    obtain ⟨b', vs'⟩ := p
    simp only [hu, exbind_ok] at h
    cases hm : MfromJson r with
    | error e => simp only [hm, exbind_err] at h; exact absurd h (by simp)
    | ok om =>
    simp only [hm, exbind_ok] at h
    have step : ∀ q' : ℚ, q' ∈ vs' ↔ q' ∈ vs0 ∨ declVer r = some q' := by
      intro q'
      rw [updateBase_vs hu]
      cases hd : declVer r with
      | none => simp
      | some x => simp [vadd_mem, eq_comm]
    cases om with
    | none =>
      rw [ih (some b') vs' ms vsf h q]
      rw [step q]
      simp only [List.mem_cons]
      constructor
      · rintro ((hq | hq) | ⟨r', hr', hd⟩)
        · exact Or.inl hq
        · exact Or.inr ⟨r, Or.inl rfl, hq⟩
        · exact Or.inr ⟨r', Or.inr hr', hd⟩
      · rintro (hq | ⟨r', (hr' | hr'), hd⟩)
        · exact Or.inl (Or.inl hq)
        · exact Or.inl (Or.inr (hr' ▸ hd))
        · exact Or.inr ⟨r', hr', hd⟩
    | some m =>
      cases ha : toAbsolute now m b' with
      | error e => simp only [ha, exbind_err] at h; exact absurd h (by simp)
      | ok a =>
      simp only [ha, exbind_ok] at h
      cases hc : collectPhase now (some b') vs' rs with
      | error e => simp only [hc, exbind_err] at h; exact absurd h (by simp)
      | ok p2 =>
      obtain ⟨ms2, vf2⟩ := p2
      simp only [hc, exbind_ok, expure, Except.ok.injEq, Prod.mk.injEq] at h
      rw [← h.2]
      rw [ih (some b') vs' ms2 vf2 hc q]
      rw [step q]
      simp only [List.mem_cons]
      constructor
      · rintro ((hq | hq) | ⟨r', hr', hd⟩)
        · exact Or.inl hq
        · exact Or.inr ⟨r, Or.inl rfl, hq⟩
        · exact Or.inr ⟨r', Or.inr hr', hd⟩
      · rintro (hq | ⟨r', (hr' | hr'), hd⟩)
        · exact Or.inl (Or.inl hq)
        · exact Or.inl (Or.inr (hr' ▸ hd))
        · exact Or.inr ⟨r', hr', hd⟩

lemma declVer_ne_zero {r : JsonRecord} {q : ℚ} (h : declVer r = some q) :
    q ≠ 0 := by
  unfold declVer at h
  cases hc : pyNumeric (getJ r.bver) with
  | error e => simp only [hc] at h; cases h
  | ok v =>
    simp only [hc] at h
    by_cases ht : truthy v
    · rw [if_pos ht] at h
      simp only [Option.some.injEq] at h
      rcases pyNumeric_shape hc with h0 | ⟨q', i, h0⟩ | ⟨b, h0⟩ <;> subst h0
      · exact absurd ht (by simp [truthy])
      · simp only [truthy, Bool.not_eq_true'] at ht
        rw [← h]
        simp only [verQ, ne_eq]
        intro hq
        rw [hq] at ht
        simp at ht
      · cases b
        · exact absurd ht (by simp [truthy])
        · rw [← h]; simp [verQ]
    · rw [if_neg ht] at h; cases h

/-- C5 counterexample: a document declaring `bver` 0 and `bver` 5 does NOT
raise — the declared version 0 is falsy and is never added to the version
set (`if base_version and ...`), so only one version is recorded and the
parse succeeds, stamping version 5. -/
theorem C5_counterexample :
    DfromJson 1000000000
      [ { bn := some (.str "a"), bver := some (.num 0 true) },
        { bver := some (.num 5 true) },
        { n := some (.str "x"), v := some (.num 1 true) } ] =
      .ok [{ name := .str "ax", time := .num 1000000000 false, unit := .none,
             value := .num 1 false, sum := .none, update_time := .none,
             version := .num 5 true }] := by with_unfolding_all rfl

/-- C5 (amended): only records whose declared base version is TRUTHY
(non-zero, non-null after numeric cleanup) add it to `versions_seen`, which
therefore never contains 0; the parse raises the conflicting-versions error
exactly when more than one distinct (truthy) version was recorded — so two
distinct non-zero versions (e.g. 5 and 6) raise, while 0 paired with any one
non-zero version does not. -/
theorem C5_amended_version_tracking (now : ℚ) (recs : List JsonRecord)
    (ms : List Measurement) (vs : VSet)
    (h : collectPhase now Option.none [] recs = .ok (ms, vs)) :
    ((DfromJson now recs = .error .multipleBaseVersions) ↔ 1 < vs.length) ∧
    (∀ q : ℚ, q ∈ vs ↔ ∃ r, r ∈ recs ∧ declVer r = some q) ∧
    (∀ q : ℚ, q ∈ vs → q ≠ 0) := by
  have hmem : ∀ q : ℚ, q ∈ vs ↔ ∃ r, r ∈ recs ∧ declVer r = some q := by
    intro q
    rw [collect_vs recs Option.none [] ms vs h q]
    simp
  refine ⟨?_, hmem, ?_⟩
  · unfold DfromJson
    simp only [h, exbind_ok]
    unfold gatePhase
    by_cases hl : 1 < vs.length
    · rw [if_pos hl, exbind_err]
      simp [hl]
    · rw [if_neg hl]
      cases vs with
      | nil => simp [hl]
      | cons v t =>
        have ht : t = [] := by
          cases t with
          | nil => rfl
          | cons a u => exact absurd (by simp only [List.length_cons]; omega) hl
        subst ht
        by_cases hv : v < 10
        · simp [hv, exbind_ok, expure]
        · simp [hv, exbind_ok, expure]
  · intro q hq
    obtain ⟨r, -, hd⟩ := (hmem q).mp hq
    exact declVer_ne_zero hd

/-- C5 witness: a document recording the single version set `[5]` does not
raise the conflicting-versions error. -/
theorem C5_witness :
    (DfromJson 0
        [ { bver := some (.num 5 true) },
          { n := some (.str "x"), v := some (.num 1 true),
            t := some (.num 268435456 true) } ] =
      .error .multipleBaseVersions) ↔ 1 < ([(5 : ℚ)] : VSet).length :=
  (C5_amended_version_tracking 0
    [ { bver := some (.num 5 true) },
      { n := some (.str "x"), v := some (.num 1 true),
        t := some (.num 268435456 true) } ]
    [{ name := .str "x", time := .num 268435456 true, unit := .none,
       value := .num 1 false, sum := .none, update_time := .none,
       version := .none }]
    [(5 : ℚ)] (by with_unfolding_all rfl)).1

/-- C6 counterexample: when the only declared base version is 0 the claim
says every parsed measurement carries version 0; the code never records the
falsy 0, so the parsed measurement keeps an absent version. -/
theorem C6_counterexample :
    DfromJson 0
      [ { bn := some (.str "a"), bver := some (.num 0 true) },
        { n := some (.str "x"), v := some (.num 1 true),
          t := some (.num 268435456 true) } ] =
      .ok [{ name := .str "ax", time := .num 268435456 true, unit := .none,
             value := .num 1 false, sum := .none, update_time := .none,
             version := .none }] := by with_unfolding_all rfl

/-- C6 (amended): when the recorded version set holds exactly one version
`v` (necessarily non-zero — a declared `bver` 0 is never recorded, so it
stamps nothing): if `v < 10` every collected measurement is stamped with
`version = v` (then time-sorted); if `v >= 10` the document resolves empty
without raising. -/
theorem C6_amended_version_gate (now : ℚ) (recs : List JsonRecord)
    (ms : List Measurement) (v : ℚ)
    (h : collectPhase now Option.none [] recs = .ok (ms, [v])) :
    v ≠ 0 ∧
    (v < 10 → DfromJson now recs =
      .ok (List.insertionSort timeLe
        (ms.map (fun m => { m with version := stampVal v })))) ∧
    (10 ≤ v → DfromJson now recs = .ok []) := by
  refine ⟨?_, ?_, ?_⟩
  · have hv : v ∈ ([v] : VSet) := by simp
    rw [collect_vs recs Option.none [] ms [v] h v] at hv
    obtain ⟨r, -, hd⟩ := hv.resolve_left (by simp)
    exact declVer_ne_zero hd
  · intro hv10
    unfold DfromJson
    simp only [h, exbind_ok]
    unfold gatePhase
    simp [hv10, exbind_ok, expure]
  · intro hv10
    unfold DfromJson
    simp only [h, exbind_ok]
    unfold gatePhase
    simp [not_lt.mpr hv10, exbind_ok, expure]

/-- C6 witness: the single recorded version 5 (< 10) is stamped onto the
collected measurement. -/
theorem C6_witness :
    DfromJson 0
        [ { bver := some (.num 5 true) },
          { n := some (.str "x"), v := some (.num 1 true),
            t := some (.num 268435456 true) } ] =
      .ok (List.insertionSort timeLe
        (([{ name := .str "x", time := .num 268435456 true, unit := .none,
             value := .num 1 false, sum := .none, update_time := .none,
             version := .none }] : List Measurement).map
          (fun m => { m with version := stampVal 5 }))) :=
  (C6_amended_version_gate 0
    [ { bver := some (.num 5 true) },
      { n := some (.str "x"), v := some (.num 1 true),
        t := some (.num 268435456 true) } ]
    [{ name := .str "x", time := .num 268435456 true, unit := .none,
       value := .num 1 false, sum := .none, update_time := .none,
       version := .none }]
    5 (by with_unfolding_all rfl)).2.1 (by norm_num)

lemma filter_orderedInsert (t : ℚ) (x : Measurement) (l : List Measurement) :
    (List.orderedInsert timeLe x l).filter (fun m => keyQ m == t) =
      if keyQ x = t then x :: l.filter (fun m => keyQ m == t)
      else l.filter (fun m => keyQ m == t) := by
  induction l with
  | nil =>
    by_cases h : keyQ x = t
    · simp [List.orderedInsert, List.filter_cons, h]
    · simp [List.orderedInsert, List.filter_cons, h]
  | cons y ys ih =>
    by_cases hxy : timeLe x y
    · simp only [List.orderedInsert, if_pos hxy]
      by_cases h : keyQ x = t
      · simp [List.filter_cons, h]
      · simp [List.filter_cons, h]
    · simp only [List.orderedInsert, if_neg hxy]
      have hyx : keyQ y < keyQ x := not_le.mp hxy
      by_cases h : keyQ x = t
      · have hy : keyQ y ≠ t := by rw [← h]; exact ne_of_lt hyx
        simp [List.filter_cons, h, hy, ih]
      · by_cases hy : keyQ y = t
        · simp [List.filter_cons, h, hy, ih]
        · simp [List.filter_cons, h, hy, ih]

lemma filter_insertionSort (t : ℚ) (l : List Measurement) :
    (List.insertionSort timeLe l).filter (fun m => keyQ m == t) =
      l.filter (fun m => keyQ m == t) := by
  induction l with
  | nil => rfl
  | cons x xs ih =>
    simp only [List.insertionSort]
    rw [filter_orderedInsert]
    by_cases h : keyQ x = t
    · simp [List.filter_cons, h, ih]
    · simp [List.filter_cons, h, ih]

/-- C7: the parsed document is sorted ascending by resolved time, the sort
is stable (for every time value, the surviving measurements with that time
appear in the same order as they were collected from the input), and when
no measurements survive the document is empty. -/
theorem C7_ordering_stable (now : ℚ) (recs : List JsonRecord)
    (out : List Measurement) (h : DfromJson now recs = .ok out) :
    List.Sorted timeLe out ∧
    ∀ ms vs g, collectPhase now Option.none [] recs = .ok (ms, vs) →
      gatePhase vs ms = .ok g →
      out = List.insertionSort timeLe g ∧
      (∀ t : ℚ, out.filter (fun m => keyQ m == t) =
        g.filter (fun m => keyQ m == t)) ∧
      (g = [] → out = []) := by
  unfold DfromJson at h
  cases hc : collectPhase now Option.none [] recs with
  | error e => rw [hc, exbind_err] at h; exact absurd h (by simp)
  | ok p =>
  obtain ⟨ms0, vs0⟩ := p
  simp only [hc, exbind_ok] at h
  cases hg : gatePhase vs0 ms0 with
  | error e => simp only [hg, exbind_err] at h; exact absurd h (by simp)
  | ok g0 =>
  simp only [hg, exbind_ok, expure, Except.ok.injEq] at h
  subst h
  constructor
  · exact List.sorted_insertionSort timeLe g0
  · intro ms vs g h1 h2
    simp only [Except.ok.injEq, Prod.mk.injEq] at h1
    obtain ⟨hms, hvs⟩ := h1
    subst hms
    subst hvs
    rw [hg] at h2
    simp only [Except.ok.injEq] at h2
    subst h2
    refine ⟨rfl, fun t => filter_insertionSort t g0, fun hg0 => ?_⟩
    subst hg0
    rfl

/-- C7 witness: three records with times 268435458, 268435456, 268435457
parse to a sorted document. -/
theorem C7_witness :
    List.Sorted timeLe
      [{ name := .str "b", time := .num 268435456 true, unit := .none,
         value := .num 2 false, sum := .none, update_time := .none,
         version := .none },
       { name := .str "c", time := .num 268435457 true, unit := .none,
         value := .num 3 false, sum := .none, update_time := .none,
         version := .none },
       { name := .str "a", time := .num 268435458 true, unit := .none,
         value := .num 1 false, sum := .none, update_time := .none,
         version := .none }] :=
  (C7_ordering_stable 0
    [ { n := some (.str "a"), v := some (.num 1 true),
        t := some (.num 268435458 true) },
      { n := some (.str "b"), v := some (.num 2 true),
        t := some (.num 268435456 true) },
      { n := some (.str "c"), v := some (.num 3 true),
        t := some (.num 268435457 true) } ]
    [{ name := .str "b", time := .num 268435456 true, unit := .none,
       value := .num 2 false, sum := .none, update_time := .none,
       version := .none },
     { name := .str "c", time := .num 268435457 true, unit := .none,
       value := .num 3 false, sum := .none, update_time := .none,
       version := .none },
     { name := .str "a", time := .num 268435458 true, unit := .none,
       value := .num 1 false, sum := .none, update_time := .none,
       version := .none }]
    (by with_unfolding_all rfl)).1

set_option maxRecDepth 4000 in
/-- C9 counterexample: after a measurement has been absolutized, the
version-consistency gate still mutates it — with a single declared version
5, the collected (absolutized) measurement has no version, while the same
measurement in the final document carries version 5, so a later parsing
step changed one of its fields. -/
theorem C9_counterexample :
    collectPhase 0 Option.none []
      [ { bn := some (.str "a"), bver := some (.num 5 true) },
        { n := some (.str "x"), v := some (.num 1 true),
          t := some (.num 268435456 true) } ] =
      .ok ([{ name := .str "ax", time := .num 268435456 true, unit := .none,
              value := .num 1 false, sum := .none, update_time := .none,
              version := .none }], [5]) ∧
    DfromJson 0
      [ { bn := some (.str "a"), bver := some (.num 5 true) },
        { n := some (.str "x"), v := some (.num 1 true),
          t := some (.num 268435456 true) } ] =
      .ok [{ name := .str "ax", time := .num 268435456 true, unit := .none,
             value := .num 1 false, sum := .none, update_time := .none,
             version := .num 5 true }] ∧
    mEq { name := .str "ax", time := .num 268435456 true, unit := .none,
          value := .num 1 false, sum := .none, update_time := .none,
          version := .num 5 true }
        { name := .str "ax", time := .num 268435456 true, unit := .none,
          value := .num 1 false, sum := .none, update_time := .none,
          version := .none } = false := by
  have h1 : collectPhase 0 Option.none []
      [ { bn := some (.str "a"), bver := some (.num 5 true) },
        { n := some (.str "x"), v := some (.num 1 true),
          t := some (.num 268435456 true) } ] =
      .ok ([{ name := .str "ax", time := .num 268435456 true, unit := .none,
              value := .num 1 false, sum := .none, update_time := .none,
              version := .none }], [5]) := by with_unfolding_all rfl
  refine ⟨h1, ?_, by with_unfolding_all rfl⟩
  unfold DfromJson
  simp only [h1, exbind_ok]
  with_unfolding_all rfl

/-- C9 (amended): document parsing after the collect loop only reorders the
absolutized measurements (stably, by time), possibly discards them all (a
single version >= 10), and overwrites at most the `version` field: the gate
output agrees with the collected list on every field other than `version`.
(`to_absolute` itself is a pure function of `self` and `base` in this
embedding, returning a freshly built record.) -/
theorem C9_amended_version_only (now : ℚ) (recs : List JsonRecord)
    (out ms : List Measurement) (vs : VSet)
    (h1 : collectPhase now Option.none [] recs = .ok (ms, vs))
    (h2 : DfromJson now recs = .ok out) :
    ∀ g, gatePhase vs ms = .ok g →
      out = List.insertionSort timeLe g ∧
      (g.map dropVer = ms.map dropVer ∨ g = []) := by
  intro g hg
  unfold DfromJson at h2
  simp only [h1, exbind_ok, hg, exbind_ok, expure, Except.ok.injEq] at h2
  refine ⟨h2.symm, ?_⟩
  unfold gatePhase at hg
  by_cases hl : 1 < vs.length
  · rw [if_pos hl] at hg; exact absurd hg (by simp)
  · rw [if_neg hl] at hg
    cases vs with
    | nil =>
      simp only [Except.ok.injEq] at hg
      subst hg
      exact Or.inl rfl
    | cons v tl =>
      by_cases hv : v < 10
      · simp only [if_pos hv, Except.ok.injEq] at hg
        subst hg
        left
        rw [List.map_map]
        rfl
      · simp only [if_neg hv, Except.ok.injEq] at hg
        subst hg
        exact Or.inr rfl

set_option maxRecDepth 2000 in
/-- C9 witness: for the two-record document declaring version 5, the final
document is the (trivially sorted) stamped list, and the stamped list agrees
with the collected list outside the version field. -/
theorem C9_witness :
    [({ name := .str "ax", time := .num 268435456 true, unit := .none,
        value := .num 1 false, sum := .none, update_time := .none,
        version := .num 5 true } : Measurement)] =
      List.insertionSort timeLe
        [{ name := .str "ax", time := .num 268435456 true, unit := .none,
           value := .num 1 false, sum := .none, update_time := .none,
           version := .num 5 true }] ∧
    (([{ name := .str "ax", time := .num 268435456 true, unit := .none,
         value := .num 1 false, sum := .none, update_time := .none,
         version := .num 5 true }] : List Measurement).map dropVer =
      ([{ name := .str "ax", time := .num 268435456 true, unit := .none,
          value := .num 1 false, sum := .none, update_time := .none,
          version := .none }] : List Measurement).map dropVer ∨
      ([{ name := .str "ax", time := .num 268435456 true, unit := .none,
          value := .num 1 false, sum := .none, update_time := .none,
          version := .num 5 true }] : List Measurement) = []) :=
  C9_amended_version_only 0
    [ { bn := some (.str "a"), bver := some (.num 5 true) },
      { n := some (.str "x"), v := some (.num 1 true),
        t := some (.num 268435456 true) } ]
    [{ name := .str "ax", time := .num 268435456 true, unit := .none,
       value := .num 1 false, sum := .none, update_time := .none,
       version := .num 5 true }]
    [{ name := .str "ax", time := .num 268435456 true, unit := .none,
       value := .num 1 false, sum := .none, update_time := .none,
       version := .none }]
    [5] (by with_unfolding_all rfl) (by with_unfolding_all rfl)
    [{ name := .str "ax", time := .num 268435456 true, unit := .none,
       value := .num 1 false, sum := .none, update_time := .none,
       version := .num 5 true }]
    (by with_unfolding_all rfl)

lemma hasBaseKey_recOf (m : Measurement) : hasBaseKey (recOf m) = false := rfl

lemma MtoJson_good {m : Measurement} (hg : goodM m) :
    MtoJson m = .ok (recOf m) := by
  obtain ⟨⟨s, hn, hs⟩, ⟨qt, it, ht, hth⟩, ⟨qv, iv, hv, hqv⟩, hsum, hu, hut, hver⟩ := hg
  unfold MtoJson recOf numField
  rw [hn, ht, hv, hver]
  rcases hsum with hsum | ⟨qs, is', hsum, hqs⟩ <;> rw [hsum] <;>
    (rcases hu with hu | ⟨su, hu, hsu⟩ <;> rw [hu] <;>
      (rcases hut with hut | ⟨qu, iu, hut⟩ <;> rw [hut] <;> rfl))

lemma widen_num (q : ℚ) (i : Bool) : widen (.num q i) = .num q false := by
  cases i <;> rfl

lemma MfromJson_recOf {m : Measurement} (hg : goodM m) :
    MfromJson (recOf m) = .ok (some (rtF m)) := by
  obtain ⟨⟨s, hn, hs⟩, ⟨qt, it, ht, hth⟩, ⟨qv, iv, hv, hqv⟩, hsum, hu, hut, hver⟩ := hg
  have hsb : (s == "") = false := beq_eq_false_iff_ne.mpr hs
  unfold MfromJson valueOf recOf rtF floatify
  rw [hn, ht, hv, hver]
  rcases hsum with hsum | ⟨qs, is', hsum, hqs⟩ <;> rw [hsum] <;>
    (rcases hu with hu | ⟨su, hu, hsu⟩ <;> rw [hu] <;>
      (rcases hut with hut | ⟨qu, iu, hut⟩ <;> rw [hut] <;>
        simp [pyEq, getJ, jToPy, pyNumeric, widen_num, hsb, exbind_ok, expure]))

lemma num_beq_zero_false {q : ℚ} (h : q ≠ 0) : (q.num == 0) = false :=
  beq_eq_false_iff_ne.mpr (by rwa [ne_eq, Rat.num_eq_zero])

lemma toAbsolute_rtF {now : ℚ} {m : Measurement} (hg : goodM m) :
    toAbsolute now (rtF m) noneM = .ok (rtF m) := by
  obtain ⟨⟨s, hn, hs⟩, ⟨qt, it, ht, hth⟩, ⟨qv, iv, hv, hqv⟩, hsum, hu, hut, hver⟩ := hg
  have hsb : (s == "") = false := beq_eq_false_iff_ne.mpr hs
  have hqt0 : qt ≠ 0 := by
    intro h0
    rw [h0] at hth
    norm_num [epochThreshold] at hth
  have hqtn : (qt.num == 0) = false := num_beq_zero_false hqt0
  have hqvn : (qv.num == 0) = false := num_beq_zero_false hqv
  have hnotlt : ¬(qt < epochThreshold) := not_lt.mpr hth
  unfold toAbsolute resName resTimeRaw resSum resValue resTime rtF floatify noneM
  rw [hn, ht, hv, hver]
  rcases hsum with hsum | ⟨qs, is', hsum, hqs⟩ <;> rw [hsum] <;>
    (rcases hu with hu | ⟨su, hu, hsu⟩ <;> rw [hu] <;>
      (rcases hut with hut | ⟨qu, iu, hut⟩ <;> rw [hut] <;>
        first
        | simp [pyOr, truthy, pyAdd, addNum, asNumQ, resTimeRaw,
                isBoolBytesStr, hsb, hqtn, hqvn, hnotlt, exbind_ok, expure,
                zero_add, num_beq_zero_false hqs,
                beq_eq_false_iff_ne.mpr hsu]
        | simp [pyOr, truthy, pyAdd, addNum, asNumQ, resTimeRaw,
                isBoolBytesStr, hsb, hqtn, hqvn, hnotlt, exbind_ok, expure,
                zero_add, num_beq_zero_false hqs]
        | simp [pyOr, truthy, pyAdd, addNum, asNumQ, resTimeRaw,
                isBoolBytesStr, hsb, hqtn, hqvn, hnotlt, exbind_ok, expure,
                zero_add, beq_eq_false_iff_ne.mpr hsu]
        | simp [pyOr, truthy, pyAdd, addNum, asNumQ, resTimeRaw,
                isBoolBytesStr, hsb, hqtn, hqvn, hnotlt, exbind_ok, expure,
                zero_add]))

lemma updateBase_nokeys {r : JsonRecord} (hb : hasBaseKey r = false)
    (base : Option Measurement)
    (hbase : base = Option.none ∨ base = some noneM) (vs : VSet) :
    updateBase base r vs = .ok (noneM, vs) := by
  have hbn : r.bn = Option.none := by
    cases hx : r.bn
    · rfl
    · rw [hasBaseKey, hx] at hb; simp at hb
  have hbt : r.bt = Option.none := by
    cases hx : r.bt
    · rfl
    · rw [hasBaseKey, hx] at hb; simp at hb
  have hbu : r.bu = Option.none := by
    cases hx : r.bu
    · rfl
    · rw [hasBaseKey, hx] at hb; simp at hb
  have hbv : r.bv = Option.none := by
    cases hx : r.bv
    · rfl
    · rw [hasBaseKey, hx] at hb; simp at hb
  have hbs : r.bs = Option.none := by
    cases hx : r.bs
    · rfl
    · rw [hasBaseKey, hx] at hb; simp at hb
  have hbver : r.bver = Option.none := by
    cases hx : r.bver
    · rfl
    · rw [hasBaseKey, hx] at hb; simp at hb
  have hbase' : baseFromJson r vs = .ok (noneM, vs) := by
    unfold baseFromJson noneM
    rw [hbn, hbt, hbu, hbv, hbs, hbver]
    rfl
  unfold updateBase
  rw [hbase', exbind_ok]
  rcases hbase with h | h <;> rw [h] <;> rfl

lemma DtoJson_good {d : List Measurement} (hg : ∀ m ∈ d, goodM m) :
    DtoJson d = .ok (d.map recOf) := by
  induction d with
  | nil => rfl
  | cons m d' ih =>
    unfold DtoJson at ih ⊢
    rw [List.mapM_cons, MtoJson_good (hg m (by simp)), exbind_ok,
        ih (fun x hx => hg x (by simp [hx])), exbind_ok, expure, List.map_cons]

lemma collect_roundtrip (now : ℚ) : ∀ (d : List Measurement),
    (∀ m ∈ d, goodM m) → ∀ (base : Option Measurement),
    (base = Option.none ∨ base = some noneM) → ∀ vs : VSet,
    collectPhase now base vs (d.map recOf) = .ok (d.map rtF, vs) := by
  intro d
  induction d with
  | nil => intro _ base _ vs; rfl
  | cons m d' ih =>
    intro hg base hbase vs
    rw [List.map_cons]
    unfold collectPhase
    simp only [updateBase_nokeys (hasBaseKey_recOf m) base hbase vs,
               exbind_ok, MfromJson_recOf (hg m (by simp)),
               toAbsolute_rtF (hg m (by simp)),
               ih (fun x hx => hg x (by simp [hx])) (some noneM) (Or.inr rfl)
                 vs,
               expure, List.map_cons]

lemma pyEq_num_num (q q' : ℚ) (i i' : Bool) :
    pyEq (.num q i) (.num q' i') = ratEqB q q' := rfl

lemma mEq_rtF (m : Measurement) : mEq (rtF m) m = true := by
  obtain ⟨mn, mt, mu, mv, msm, mtu, mvr⟩ := m
  cases mv <;>
    simp [mEq, rtF, floatify, pyEq_refl, pyEq_num_num, ratEqB]

lemma docEq_rtF : ∀ d : List Measurement, docEq (d.map rtF) d = true := by
  intro d
  induction d with
  | nil => rfl
  | cons m d' ih =>
    rw [List.map_cons]
    unfold docEq
    rw [mEq_rtF, ih]
    rfl

/-- C8 counterexample: a document whose only measurement has the numeric
value 0 (name "a", absolute time) does not survive the round trip — the
re-parsed measurement has NO value at all, because `to_absolute` drops a
falsy `self.value` when the base has none. -/
theorem C8_counterexample :
    (DtoJson [{ name := .str "a", time := .num 268435456 true,
                value := .num 0 true }]).bind (DfromJson 0) =
      .ok [{ name := .str "a", time := .num 268435456 true, unit := .none,
             value := .none, sum := .none, update_time := .none,
             version := .none }] ∧
    docEq [{ name := .str "a", time := .num 268435456 true, unit := .none,
             value := .none, sum := .none, update_time := .none,
             version := .none }]
          [{ name := .str "a", time := .num 268435456 true,
             value := .num 0 true }] = false := by
  constructor
  · with_unfolding_all rfl
  · with_unfolding_all rfl

/-- C8 (amended): for every time-sorted document whose measurements have a
non-empty string name, numeric time at or above the epoch threshold,
non-zero numeric value, absent-or-non-zero sum, absent-or-non-empty-string
unit, numeric-or-absent update time and no version tag, parsing the
serialization succeeds and returns the same document up to Python `==`
(each int-typed value widens to the equal float; all other fields are
preserved exactly). -/
theorem C8_amended_roundtrip (now : ℚ) (d : List Measurement)
    (recs : List JsonRecord) (hg : ∀ m ∈ d, goodM m)
    (hsort : List.Pairwise timeLe d) (hser : DtoJson d = .ok recs) :
    DfromJson now recs = .ok (d.map rtF) ∧ docEq (d.map rtF) d = true := by
  have hrecs : recs = d.map recOf := by
    rw [DtoJson_good hg] at hser
    simpa using hser.symm
  subst hrecs
  constructor
  · unfold DfromJson
    have hgate : gatePhase [] (d.map rtF) = .ok (d.map rtF) := rfl
    simp only [collect_roundtrip now d hg Option.none (Or.inl rfl) [],
               exbind_ok, hgate, expure]
    have hsorted : List.Sorted timeLe (d.map rtF) :=
      hsort.map rtF (fun a b h => h)
    rw [List.Sorted.insertionSort_eq hsorted]
  · exact docEq_rtF d

/-- C8 witness: a one-measurement document (name "a", time 268435456,
int value 1) round-trips to itself up to `==` (value widened to float). -/
theorem C8_witness :
    DfromJson 0 [{ n := some (.str "a"), t := some (.num 268435456 true),
                   v := some (.num 1 true) }] =
      .ok (([{ name := .str "a", time := .num 268435456 true,
               value := .num 1 true }] : List Measurement).map rtF) ∧
    docEq (([{ name := .str "a", time := .num 268435456 true,
               value := .num 1 true }] : List Measurement).map rtF)
          [{ name := .str "a", time := .num 268435456 true,
             value := .num 1 true }] = true :=
  C8_amended_roundtrip 0
    [{ name := .str "a", time := .num 268435456 true, value := .num 1 true }]
    [{ n := some (.str "a"), t := some (.num 268435456 true),
       v := some (.num 1 true) }]
    (by
      intro m hm
      rw [List.mem_singleton] at hm
      subst hm
      exact ⟨⟨"a", rfl, by decide⟩,
             ⟨268435456, true, rfl, by norm_num [epochThreshold]⟩,
             ⟨1, true, rfl, by norm_num⟩,
             Or.inl rfl, Or.inl rfl, Or.inl rfl, rfl⟩)
    (by simp)
    (by with_unfolding_all rfl)
